import Mathlib

/-!
Shallow embedding of fabric's `main.py` (settings loading, fabfile discovery
and loading, and command-line invocation parsing) together with proofs about
the behaviour of these functions.

Conventions of the embedding:

* Python strings are Lean `String`s; the Python string primitives the source
  actually resolves (the method `s.partition`, `strip`, `startswith`,
  membership `in`) are modelled on the underlying character lists below,
  matching CPython semantics.
* Python dicts are association lists with replace-on-assignment insertion
  (`kwInsert`) and lookup `dictGet`.  Assignment to an existing key replaces
  its value in place; a new key is appended.
* The filesystem is an explicit value: for `load_settings` a map from a path
  to the list of raw lines of the file at that path (each raw line carries
  its trailing newline character, exactly as Python file iteration yields
  it); for `find_fabfile` a list of the existing files, each a pair of a
  directory and a file name.  Directories are lists of path components with
  the innermost component first (so the parent directory is `List.tail`) and
  the filesystem root is `[]`.
* Name resolution is modelled faithfully.  `main.py` binds, besides its own
  definitions, only `OptionParser`, `os`, `sys`, `abort`, `commands`, `env`
  and `win32`; the free names `partition` (line 202) and `ENV` (line 212)
  inside `parse_arguments` are bound nowhere — Python has no such builtins
  and the imports bring in neither.  A Python expression mentioning an
  unbound name raises `NameError` when evaluated, so the embedding of
  `parse_arguments` returns `Except PyError`, raising `.nameError
  "partition"` the moment the argspec loop body would run.
* `__import__` is abstracted as a function from a module name to either an
  error (the import raised) or a module, a module being the list of its
  top-level bindings, each marked with whether it is callable.
-/

/-- Python `c in s` for a single character `c`. -/
def strContains (s : String) (c : Char) : Bool :=
  s.data.any (fun x => x = c)

/-- Python `s.split(c, 1)` for a string containing `c`, and the last two
components of `s.partition(c)` when `c` occurs in `s`: the part before the
first occurrence of `c` and the part after it. -/
def splitFirst (s : String) (c : Char) : String × String :=
  (⟨s.data.takeWhile (fun x => x ≠ c)⟩, ⟨(s.data.dropWhile (fun x => x ≠ c)).drop 1⟩)

/-- The Python string method `s.partition(c)` (as called by `load_settings`
at main.py line 40), keeping only the head and tail components: if `c`
occurs in `s` the parts before and after its first occurrence, otherwise
`(s, "")`. -/
def partition (s : String) (c : Char) : String × String :=
  if strContains s c then splitFirst s c else (s, "")

/-- Python `s.strip()`: remove leading and trailing whitespace. -/
def pyStrip (s : String) : String :=
  ⟨((s.data.dropWhile Char.isWhitespace).reverse.dropWhile Char.isWhitespace).reverse⟩

/-- Python `s.startswith(t)`. -/
def pyStartsWith (s t : String) : Bool :=
  t.data.isPrefixOf s.data

/-- Python dict assignment `m[k] = v` on an association list: replace the
value of an existing key in place, otherwise append the new pair. -/
def kwInsert (m : List (String × String)) (k v : String) : List (String × String) :=
  if m.any (fun p => p.1 == k) then
    m.map (fun p => if p.1 = k then (k, v) else p)
  else
    m ++ [(k, v)]

/-- Python dict lookup `m.get(k)` on an association list: the value of the
first pair whose key is `k`, if any. -/
def dictGet (m : List (String × String)) (k : String) : Option String :=
  match m with
  | [] => none
  | p :: m => if p.1 = k then some p.2 else dictGet m k

/-- One parsed command of `parse_arguments`: the tuple
`(cmd, cmd_args, cmd_kwargs, cmd_hosts)` appended per token. -/
structure InvocationRecord where
  name : String
  positionalArgs : List String
  keywordArgs : List (String × String)
  hostOverrides : List String
deriving Repr, DecidableEq

/-- A raised Python exception, as observed by a caller: `NameError` carries
the unbound name. -/
inductive PyError where
  | nameError (missing : String)
deriving Repr, DecidableEq

/-- `parse_arguments` from main.py, embedded faithfully with respect to name
resolution.  For a token without a colon the loop only appends the record
`(cmd, [], {}, [])`.  For a token containing a colon, line 200 splits it at
the first colon, line 201 iterates over the comma-split argspecs — always at
least one, since Python's `split(',')` never returns an empty list — and the
first statement of that loop body, `partition(cmd_arg_kv, '=')` at line 202,
calls the free name `partition`, which is bound nowhere: the module defines
no `partition`, imports only `abort` from utils and `commands`, `env`,
`win32` from state, and Python has no builtin of that name (the companion
`load_settings` uses the method form `s.partition`).  Evaluating the call
therefore raises `NameError` before any argspec is inspected, and the whole
call propagates it; the later keyword statement `(v % ENV) or k` at line 212
would likewise reference the unbound name `ENV`.  The embedding returns the
raised error through `Except`, at the first token containing a colon. -/
def parse_arguments : List String → Except PyError (List InvocationRecord)
  | [] => .ok []
  | cmd :: rest =>
    if strContains cmd ':' then
      .error (.nameError "partition")
    else
      match parse_arguments rest with
      | .ok cmds => .ok (⟨cmd, [], [], []⟩ :: cmds)
      | .error e => .error e

/-- `load_settings` from main.py over an explicit filesystem (a map from
path to the raw lines of the file, trailing newlines included).  When the
path does not exist the function falls off the end of the Python body and
returns `None`, modelled as `none`; otherwise the lines passing the filter
`s and not s.startswith("#")` are each split at the first `=` and the
stripped pairs are collected into a dict. -/
def load_settings (fs : List (String × List String)) (path : String) :
    Option (List (String × String)) :=
  match fs.lookup path with
  | none => none
  | some fileLines =>
    let settings := fileLines.filter (fun s => !(s == "") && !(pyStartsWith s "#"))
    some ((settings.map (fun s =>
      let kv := partition s '='
      (pyStrip kv.1, pyStrip kv.2))).foldl (fun m p => kwInsert m p.1 p.2) [])

/-- The candidate fabfile names checked by `find_fabfile`, in priority
order. -/
def fabfile_guesses : List String := ["fabfile.py", "Fabfile.py"]

/-- `find_fabfile` from main.py over an explicit filesystem (the list of
existing files, each a directory paired with a file name; directories are
component lists, innermost component first, the root being `[]`).  The walk
starts at the current working directory and moves to the parent on each
step; it stops, without checking the root itself, when the last path
component is empty (the source comment: stop before falling off the root of
the filesystem).  At each directory the guesses are filtered by existence
and the first surviving guess is returned with its directory. -/
def find_fabfile (fs : List (List String × String)) :
    List String → Option (List String × String)
  | [] => none
  | d :: ds =>
    match fabfile_guesses.filter (fun g => fs.contains (d :: ds, g)) with
    | g :: _ => some (d :: ds, g)
    | [] => find_fabfile fs ds

/-- Python `os.path.split`: split a path at its last slash; the head keeps
a root slash but loses other trailing slashes. -/
def os_path_split (p : String) : String × String :=
  let r := p.data.reverse
  let tl := (r.takeWhile (fun x => x ≠ '/')).reverse
  let head0 := r.dropWhile (fun x => x ≠ '/')
  let head := if head0.all (fun x => x = '/') then head0 else head0.dropWhile (fun x => x = '/')
  (⟨head.reverse⟩, ⟨tl⟩)

/-- Python `os.path.splitext`, simplified to a split at the last dot (the
source only ever applies it to names such as `fabfile.py`). -/
def os_path_splitext (p : String) : String × String :=
  if strContains p '.' then
    let r := p.data.reverse
    (⟨((r.dropWhile (fun x => x ≠ '.')).drop 1).reverse⟩,
     ⟨'.' :: (r.takeWhile (fun x => x ≠ '.')).reverse⟩)
  else (p, "")

/-- `load_fabfile` from main.py with the import abstracted as `importFn` and
`sys.path` passed explicitly.  The directory of the path is prepended to
`sys.path` when absent (`sys.path.insert(0, directory)`); the import is then
performed, and only on its successful return does `del sys.path[0]` run
(there is no `try`/`finally` in the source): when `importFn` raises, the
function propagates the error with the mutated path left in place.  The
result value on success is the dict of callable top-level bindings. -/
def load_fabfile (importFn : String → Except String (List (String × Bool)))
    (sysPath : List String) (path : String) :
    Except String (List (String × Bool)) × List String :=
  let sp := os_path_split path
  let directory := sp.1
  let fabfile := sp.2
  let added_to_path := !(sysPath.contains directory)
  let sysPath1 := if added_to_path then directory :: sysPath else sysPath
  match importFn (os_path_splitext fabfile).1 with
  | .error e => (.error e, sysPath1)
  | .ok imported =>
    (.ok (imported.filter (fun x => x.2)),
     if added_to_path then sysPath1.drop 1 else sysPath1)

/-- Replacing the value of a key that occurs nowhere in the association list
leaves the list unchanged. -/
theorem map_replace_of_no_key (m : List (String × String)) (k v : String)
    (h : ¬ (m.any fun q => q.1 == k) = true) :
    m.map (fun p => if p.1 = k then (k, v) else p) = m := by
  induction m with
  | nil => rfl
  | cons p m ih =>
    simp only [List.any_cons, Bool.or_eq_true, not_or] at h
    have hp : ¬ p.1 = k := by simpa using h.1
    simp [hp, ih h.2]

/-- After `kwInsert m k v`, looking up `k` yields `v`. -/
theorem dictGet_kwInsert_self (m : List (String × String)) (k v : String) :
    dictGet (kwInsert m k v) k = some v := by
  induction m with
  | nil => simp [kwInsert, dictGet]
  | cons p m ih =>
    by_cases hp : p.1 = k
    · simp [kwInsert, List.any_cons, hp, dictGet]
    · have hp' : (p.1 == k) = false := by simp [hp]
      by_cases hm : m.any (fun q => q.1 == k)
      · have ih' := ih
        simp only [kwInsert, hm, if_pos] at ih'
        simp [kwInsert, List.any_cons, hp', hm, dictGet, hp, ih']
      · have ih' := ih
        simp only [kwInsert, hm, if_neg, Bool.false_eq_true, not_false_iff] at ih'
        simp [kwInsert, List.any_cons, hp', hm, dictGet, hp, ih']

/-- `kwInsert m k v` does not change the binding of any key other than `k`. -/
theorem dictGet_kwInsert_ne (m : List (String × String)) (k v k' : String)
    (h : k' ≠ k) : dictGet (kwInsert m k v) k' = dictGet m k' := by
  have h2 : ¬ k = k' := Ne.symm h
  have h3 : (k' == k) = false := by simp [h]
  induction m with
  | nil => simp [kwInsert, dictGet, h2]
  | cons p m ih =>
    by_cases hp : p.1 = k
    · have hq : ¬ p.1 = k' := by rw [hp]; exact h2
      by_cases hm : m.any (fun q => q.1 == k)
      · have ih' := ih
        simp only [kwInsert, hm, if_pos] at ih'
        simp [kwInsert, List.any_cons, hp, hm, dictGet, hq, h2, ih']
      · have hmap := map_replace_of_no_key m k v hm
        simp [kwInsert, List.any_cons, hp, hm, dictGet, hq, h2, hmap]
    · have hp' : (p.1 == k) = false := by simp [hp]
      by_cases hm : m.any (fun q => q.1 == k)
      · have ih' := ih
        simp only [kwInsert, hm, if_pos] at ih'
        by_cases hq : p.1 = k'
        · simp only [kwInsert, List.any_cons, hp', Bool.false_or, hm, if_pos,
            List.map_cons, hp, if_neg, not_false_iff]
          simp [dictGet, hq, hp]
        · simp [kwInsert, List.any_cons, hp', hp, hm, dictGet, hq, ih']
      · have ih' := ih
        simp only [kwInsert, hm, if_neg, Bool.false_eq_true, not_false_iff] at ih'
        by_cases hq : p.1 = k'
        · simp [kwInsert, List.any_cons, hp', hp, hm, dictGet, hq, h3, h2]
        · simp [kwInsert, List.any_cons, hp', hp, hm, dictGet, hq, ih']

/-- A key is absent from a fold of `kwInsert` assignments exactly when it is
absent from the initial dict and from the assigned keys. -/
theorem dictGet_kwFold_eq_none (ps : List (String × String))
    (m : List (String × String)) (k : String) :
    dictGet (ps.foldl (fun m p => kwInsert m p.1 p.2) m) k = none ↔
      (dictGet m k = none ∧ k ∉ ps.map Prod.fst) := by
  induction ps generalizing m with
  | nil => simp
  | cons p ps ih =>
    rw [List.foldl_cons, ih]
    by_cases hk : k = p.1
    · constructor
      · rintro ⟨h1, -⟩
        rw [hk, dictGet_kwInsert_self] at h1
        exact absurd h1 (by simp)
      · rintro ⟨-, h2⟩
        exact absurd (by simp [hk]) h2
    · rw [dictGet_kwInsert_ne _ _ _ _ hk]
      simp [hk]

/-- C1 counterexample: on the token `"name:"` (a name followed by a colon
with no further content) `parse_arguments` does not return normally at all:
the argspec loop's first statement calls the unbound free name `partition`
and raises `NameError`, so no record — with zero positional arguments or
otherwise — is produced. -/
theorem c1_counterexample :
    parse_arguments ["name:"] = .error (.nameError "partition") ∧
    parse_arguments ["name:"] ≠ .ok [⟨"name", [], [], []⟩] := by
  refine ⟨rfl, ?_⟩
  intro h
  rw [show parse_arguments ["name:"] = Except.error (.nameError "partition") from rfl] at h
  exact Except.noConfusion h

/-- C1 (amended): `parse_arguments` returns normally exactly when no token
contains a colon, in which case each token yields a record with that name
and empty positional, keyword and host collections; any token containing a
colon — in particular a name followed by a colon with no further content —
makes the call raise `NameError` for the unbound name `partition` instead
of returning. -/
theorem c1_amended_colon_raises (args : List String) :
    ((∀ t ∈ args, strContains t ':' = false) →
      parse_arguments args = .ok (args.map (fun t => ⟨t, [], [], []⟩))) ∧
    ((∃ t ∈ args, strContains t ':' = true) →
      parse_arguments args = .error (.nameError "partition")) := by
  induction args with
  | nil =>
    constructor
    · intro _
      rfl
    · rintro ⟨t, ht, -⟩
      cases ht
  | cons c rest ih =>
    constructor
    · intro h
      have hc := h c (List.mem_cons_self c rest)
      have hrest := ih.1 (fun t ht => h t (List.mem_cons_of_mem c ht))
      simp [parse_arguments, hc, hrest]
    · rintro ⟨t, ht, hcolon⟩
      rcases List.mem_cons.1 ht with rfl | ht'
      · simp [parse_arguments, hcolon]
      · by_cases hc : strContains c ':'
        · simp [parse_arguments, hc]
        · have hrest := ih.2 ⟨t, ht', hcolon⟩
          simp [parse_arguments, hc, hrest]

/-- C1 witness: the amended statement at concrete token lists, one without
and one with a colon token. -/
theorem c1_witness :
    parse_arguments ["deploy", "sync"] =
      .ok [⟨"deploy", [], [], []⟩, ⟨"sync", [], [], []⟩] ∧
    parse_arguments ["deploy", "name:"] = .error (.nameError "partition") :=
  ⟨(c1_amended_colon_raises ["deploy", "sync"]).1 (by decide),
   (c1_amended_colon_raises ["deploy", "name:"]).2 ⟨"name:", by simp, by decide⟩⟩

/-- C2: on a path that does not exist in the filesystem, `load_settings`
falls off the end of its body and returns `None` (modelled `none`), not an
empty mapping. -/
theorem c2_missing_file_returns_none (fs : List (String × List String))
    (path : String) (h : fs.lookup path = none) :
    load_settings fs path = none := by
  simp [load_settings, h]

/-- C2 witness: the concrete evaluation at a nonexistent path. -/
theorem c2_witness : load_settings [] "/nonexistent" = none :=
  c2_missing_file_returns_none [] "/nonexistent" rfl

/-- C10: evaluating the code at the failing inputs: a token carrying the
argspec `host=` or `hosts=` raises `NameError` at the unbound free name
`partition` before the value test `if v:` is reached, so nothing is
appended to the positional arguments and no record is produced. -/
theorem c10_empty_value_token_raises :
    parse_arguments ["t:host="] = .error (.nameError "partition") ∧
    parse_arguments ["t:hosts="] = .error (.nameError "partition") :=
  ⟨rfl, rfl⟩

/-- C4 counterexample: when the import raises (here the abstracted import
returns an error), the directory prepended to `sys.path` is not removed, so
the net mutation on that exit path is not empty. -/
theorem c4_counterexample :
    (load_fabfile (fun _ => .error "boom") [] "/a/fabfile.py").2 = ["/a"] ∧
    (["/a"] : List String) ≠ [] := by
  exact ⟨rfl, by decide⟩

/-- C4 (amended): on a successful import the net mutation of `sys.path` is
empty; when the import raises, the directory (prepended exactly when it was
not already on the path) is left on the path. -/
theorem c4_amended_syspath_cleanup
    (importFn : String → Except String (List (String × Bool)))
    (sysPath : List String) (path : String) :
    (∀ reg, (load_fabfile importFn sysPath path).1 = .ok reg →
        (load_fabfile importFn sysPath path).2 = sysPath) ∧
    (∀ e, (load_fabfile importFn sysPath path).1 = .error e →
        (load_fabfile importFn sysPath path).2 =
          (if sysPath.contains (os_path_split path).1 then sysPath
           else (os_path_split path).1 :: sysPath)) := by
  cases him : importFn (os_path_splitext (os_path_split path).2).1 with
  | error e =>
    constructor
    · intro reg hr
      simp [load_fabfile, him] at hr
    · intro e' _
      by_cases hc : sysPath.contains (os_path_split path).1
      · simp [load_fabfile, him, hc]
      · simp [load_fabfile, him, hc]
  | ok imported =>
    constructor
    · intro reg _
      by_cases hc : (os_path_split path).1 ∈ sysPath
      · simp [load_fabfile, him, hc]
      · simp [load_fabfile, him, hc]
    · intro e hr
      simp [load_fabfile, him] at hr

/-- C4 witness: the amended statement at concrete inputs, one import that
succeeds and one that raises. -/
theorem c4_witness :
    (load_fabfile (fun _ => .ok [("deploy", true)]) [] "/a/fabfile.py").2 = [] ∧
    (load_fabfile (fun _ => .error "x") ["/a"] "/a/fabfile.py").2 =
      (if (["/a"] : List String).contains (os_path_split "/a/fabfile.py").1
       then (["/a"] : List String)
       else (os_path_split "/a/fabfile.py").1 :: ["/a"]) :=
  ⟨(c4_amended_syspath_cleanup (fun _ => .ok [("deploy", true)]) [] "/a/fabfile.py").1
      [("deploy", true)] rfl,
   (c4_amended_syspath_cleanup (fun _ => .error "x") ["/a"] "/a/fabfile.py").2 "x" rfl⟩

/-- C5: evaluating the code at the failing inputs: a token carrying `host=`
or `hosts=` argspecs raises `NameError` at the unbound free name
`partition` before the host branch can run, so no host overrides are ever
produced — in particular `hosts` never gets the chance to replace `host`. -/
theorem c5_host_token_raises :
    parse_arguments ["sync:host=a"] = .error (.nameError "partition") ∧
    parse_arguments ["sync:host=a,hosts=b;c"] = .error (.nameError "partition") :=
  ⟨rfl, rfl⟩

/-- C6: evaluating the code at the failing input: the token `t:Host=x`
raises `NameError` at the unbound `partition` and produces no record, so
`Host` is never stored as a keyword argument; on the returning path every
produced record in fact carries an empty keyword dict, since only colon-free
tokens survive the loop. -/
theorem c6_kwarg_token_raises :
    parse_arguments ["t:Host=x"] = .error (.nameError "partition") ∧
    (∀ args recs, parse_arguments args = .ok recs →
      ∀ rec ∈ recs, rec.keywordArgs = []) := by
  refine ⟨rfl, ?_⟩
  intro args
  induction args with
  | nil =>
    intro recs h rec hrec
    simp only [parse_arguments] at h
    cases h
    cases hrec
  | cons c rest ih =>
    intro recs h rec hrec
    by_cases hc : strContains c ':'
    · simp [parse_arguments, hc] at h
    · simp only [parse_arguments, hc, Bool.false_eq_true, if_neg, not_false_iff] at h
      cases hr : parse_arguments rest with
      | error e =>
        rw [hr] at h
        exact absurd h (by simp)
      | ok cmds =>
        rw [hr] at h
        simp only [Except.ok.injEq] at h
        subst h
        rcases List.mem_cons.1 hrec with rfl | hmem
        · rfl
        · exact ih cmds hr rec hmem

/-- C6 witness: the theorem at concrete inputs, discharging the
empty-keyword-dict conjunct on a record actually produced. -/
theorem c6_witness :
    parse_arguments ["t:Host=x"] = .error (.nameError "partition") ∧
    (⟨"deploy", [], [], []⟩ : InvocationRecord).keywordArgs = [] :=
  ⟨c6_kwarg_token_raises.1,
   c6_kwarg_token_raises.2 ["deploy"] [⟨"deploy", [], [], []⟩] rfl
     ⟨"deploy", [], [], []⟩ (List.mem_singleton.2 rfl)⟩

/-- C7 counterexample: on the path that does execute — a colon-free token —
the task name is stored verbatim, surrounding whitespace included, not
trimmed; and a token with argspecs raises `NameError` before any key, value
or bareword could be stored at all. -/
theorem c7_counterexample :
    parse_arguments [" t "] = .ok [⟨" t ", [], [], []⟩] ∧
    pyStrip " t " = "t" ∧ (" t " : String) ≠ "t" ∧
    parse_arguments [" t : a = b , c "] = .error (.nameError "partition") := by
  exact ⟨rfl, by decide, by decide, rfl⟩

/-- C7 (amended): no whitespace trimming occurs in `parse_arguments`: a
colon-free task name is stored exactly as given, and a token containing a
colon raises `NameError` at the unbound name `partition` before any
keyword key, keyword value or positional bareword is stored, trimmed or
otherwise. -/
theorem c7_amended_no_trimming (t u : String)
    (ht : strContains t ':' = false) (hu : strContains u ':' = true) :
    parse_arguments [t] = .ok [⟨t, [], [], []⟩] ∧
    parse_arguments [u] = .error (.nameError "partition") := by
  constructor
  · simp [parse_arguments, ht]
  · simp [parse_arguments, hu]

/-- C7 witness: the amended statement at a whitespace-padded bare name and
a whitespace-padded argspec token. -/
theorem c7_witness :
    parse_arguments [" t "] = .ok [⟨" t ", [], [], []⟩] ∧
    parse_arguments [" t : a = b , c ,host= h "] = .error (.nameError "partition") :=
  c7_amended_no_trimming " t " " t : a = b , c ,host= h " (by decide) (by decide)

/-- C8: evaluating the code at the failing input: a token with a keyword
argspec raises `NameError` at the unbound `partition` before reaching the
keyword statement — whose right-hand side `(v % ENV) or k` would itself
reference the further unbound name `ENV` — so no interpolated value, and no
key-name fallback, is ever stored. -/
theorem c8_kwarg_statement_unreachable :
    parse_arguments ["t:x=y"] = .error (.nameError "partition") := rfl

/-- C3 counterexample: a comment line indented by whitespace (its first
non-whitespace character is `#`) and a blank line (read as the single
newline character) both pass the filter `s and not s.startswith("#")` and
contribute keys to the mapping. -/
theorem c3_counterexample :
    load_settings [("f", ["  #x\n"])] "f" = some [("#x", "")] ∧
    ("  #x\n".data.dropWhile Char.isWhitespace).head? = some '#' ∧
    load_settings [("g", ["\n"])] "g" = some [("", "")] := by
  refine ⟨rfl, by decide, rfl⟩

/-- C3 (amended): a line of an existing settings file is ignored exactly
when it is the empty string or its very first character is `#`; a key
appears in the returned mapping exactly when some retained line has that
trimmed text before its first `=`.  Blank lines are read including their
newline, hence are retained and contribute the empty key, and comment
lines indented by whitespace are retained and contribute keys. -/
theorem c3_amended_filter_is_literal (fs : List (String × List String))
    (path : String) (fileLines : List String) (k : String)
    (h : fs.lookup path = some fileLines) :
    ((load_settings fs path).bind (fun m => dictGet m k) ≠ none ↔
      ∃ s ∈ fileLines, (s ≠ "" ∧ pyStartsWith s "#" = false) ∧
        pyStrip (partition s '=').1 = k) := by
  simp only [load_settings, h, Option.some_bind]
  rw [Ne, dictGet_kwFold_eq_none]
  simp only [dictGet, true_and, not_not]
  rw [List.map_map]
  constructor
  · intro hmem
    obtain ⟨s, hs, hsk⟩ := List.mem_map.1 hmem
    obtain ⟨hsl, hpred⟩ := List.mem_filter.1 hs
    refine ⟨s, hsl, ?_, hsk⟩
    simpa [Bool.and_eq_true, Bool.not_eq_true'] using hpred
  · rintro ⟨s, hsl, hpred, hsk⟩
    refine List.mem_map.2 ⟨s, List.mem_filter.2 ⟨hsl, ?_⟩, hsk⟩
    simpa [Bool.and_eq_true, Bool.not_eq_true'] using hpred

/-- C3 witness: the amended characterization at a concrete one-line file. -/
theorem c3_witness :
    ((load_settings [("f", ["a=1\n"])] "f").bind (fun m => dictGet m "a") ≠ none ↔
      ∃ s ∈ ["a=1\n"], (s ≠ "" ∧ pyStartsWith s "#" = false) ∧
        pyStrip (partition s '=').1 = "a") :=
  c3_amended_filter_is_literal [("f", ["a=1\n"])] "f" ["a=1\n"] "a" rfl

/-- The list of terminal segments of a list is never empty. -/
theorem tails_ne_nil_str (l : List String) : l.tails ≠ [] := by
  cases l <;> simp

/-- The filter of the two fabfile guesses by existence, as an explicit
case split. -/
theorem guesses_filter_eval (fs : List (List String × String)) (dir : List String) :
    fabfile_guesses.filter (fun g => fs.contains (dir, g)) =
      (if fs.contains (dir, "fabfile.py") then ["fabfile.py"] else []) ++
      (if fs.contains (dir, "Fabfile.py") then ["Fabfile.py"] else []) := by
  cases h1 : fs.contains (dir, "fabfile.py") <;>
    cases h2 : fs.contains (dir, "Fabfile.py") <;>
      simp only [fabfile_guesses, List.filter_cons, List.filter_nil, h1, h2] <;> rfl

/-- C9: `find_fabfile` returns the first hit when walking the ancestor
chain of the working directory from the innermost directory outward,
stopping before the root; in each directory `fabfile.py` is tried before
`Fabfile.py`, and when no directory of the chain contains either candidate
the not-found sentinel `none` is returned (the function is total and never
raises). -/
theorem c9_find_fabfile_first_hit (fs : List (List String × String))
    (cwd : List String) :
    find_fabfile fs cwd =
      (cwd.tails.dropLast).findSome? (fun dir =>
        if fs.contains (dir, "fabfile.py") then some (dir, "fabfile.py")
        else if fs.contains (dir, "Fabfile.py") then some (dir, "Fabfile.py")
        else none) := by
  induction cwd with
  | nil => simp [find_fabfile]
  | cons d ds ih =>
    have hstep : find_fabfile fs (d :: ds) =
        match fabfile_guesses.filter (fun g => fs.contains (d :: ds, g)) with
        | g :: _ => some (d :: ds, g)
        | [] => find_fabfile fs ds := rfl
    have htails : (d :: ds).tails = (d :: ds) :: ds.tails := by simp
    obtain ⟨t, ts, hts⟩ : ∃ t ts, ds.tails = t :: ts := by
      cases hd : ds.tails with
      | nil => exact absurd hd (tails_ne_nil_str ds)
      | cons t ts => exact ⟨t, ts, rfl⟩
    rw [hstep, guesses_filter_eval, htails, hts, List.dropLast_cons₂,
      List.findSome?_cons, ← hts]
    cases h1 : fs.contains ((d :: ds), "fabfile.py") <;>
      cases h2 : fs.contains ((d :: ds), "Fabfile.py")
    · simpa only [h1, h2, if_neg, Bool.false_eq_true, not_false_iff,
        List.nil_append] using ih
    · simp only [h1, h2, if_neg, if_pos, Bool.false_eq_true, not_false_iff,
        List.nil_append]
    · simp only [h1, h2, if_pos, if_neg, Bool.false_eq_true, not_false_iff,
        List.singleton_append]
    · simp only [h1, h2, if_pos, List.singleton_append]
